import Mathlib

/-!
Shallow embedding of the retrieval-aggregation core of the law-RAG system:
`MilvusLawSearcher.search_similar_laws` (src/databases/milvus_db.py),
`LLMHelper.get_llm_questions` (src/aitools/llm.py), and the orchestration
methods of `ProLawRAGSearch` (src/searchers/search.py).

External services (Milvus client, Azure OpenAI, the sentence embedder) are
modelled as oracles: a call's outcome is a value of an `Option` type, where
`none` models the exception branch that the source catches and logs.
Similarity scores are floats in the source and are only ever compared, so
they are modelled as `Int`; embedding vectors are opaque to all the logic
verified here and are modelled as `List Int`.
-/

namespace LawRAG

/-- One raw hit as returned by the Milvus client for one query vector:
the `distance` score plus the entity output fields requested in
`OUTPUT_FIELDS` (src/databases/milvus_db.py). `sectionName` embeds the
`section` field (renamed because `section` is a Lean keyword). -/
structure Hit where
  distance : Int
  source_doc : String
  sectionName : String
  chapter : String
  article_title : String
  article_text : String
deriving DecidableEq

/-- One structured result of `search_similar_laws`: the dict
`{'distance': ..., 'path': ..., 'text': ...}` built at
src/databases/milvus_db.py lines 116-125. -/
structure LawResult where
  distance : Int
  path : String
  text : String
deriving DecidableEq

/-- Builds the structured result dict from a raw hit: the `path` is the
newline join of the four labelled entity fields (milvus_db.py lines 118-123). -/
def buildResult (h : Hit) : LawResult :=
  { distance := h.distance
  , path := "Source: " ++ h.source_doc ++ "\n" ++ "Section: " ++ h.sectionName
      ++ "\n" ++ "Chapter: " ++ h.chapter ++ "\n" ++ "Title: " ++ h.article_title
  , text := h.article_text }

/-- One iteration of the dedup loop body (milvus_db.py lines 115-125) on the
ordered dict `seen_texts`, modelled as an association list in insertion
order: if an entry with the same text exists it is replaced in place when
the new distance is strictly greater (a Python dict update keeps the key's
original position); otherwise the new entry is appended at the end (a new
key goes to the end of the insertion order). -/
def updateSeen (seen : List LawResult) (r : LawResult) : List LawResult :=
  match seen with
  | [] => [r]
  | s :: rest =>
    if s.text = r.text then (if r.distance > s.distance then r else s) :: rest
    else s :: updateSeen rest r

/-- The full dedup loop of `search_similar_laws` (milvus_db.py lines
107-125) over the flattened candidate list, in input order. -/
def dedupMax (candidates : List LawResult) : List LawResult :=
  candidates.foldl updateSeen []

/-- The comparison used by `sorted(..., key=lambda x: x['distance'],
reverse=True)` (milvus_db.py lines 128-132): descending by distance. -/
def scoreGe (a b : LawResult) : Prop := b.distance ≤ a.distance

instance : DecidableRel scoreGe :=
  fun a b => inferInstanceAs (Decidable (b.distance ≤ a.distance))

instance : IsTotal LawResult scoreGe :=
  ⟨fun a b => Int.le_total b.distance a.distance⟩

instance : IsTrans LawResult scoreGe :=
  ⟨fun _ _ _ hab hbc => le_trans hbc hab⟩

/-- The final sort of `search_similar_laws`. Python's `sorted` is a stable
sort, and a stable sort by a total preorder is extensionally unique, so it
is modelled by stable insertion sort with the descending-score relation
(ties keep input order in both). -/
def sortByScoreDesc (rs : List LawResult) : List LawResult :=
  List.insertionSort scoreGe rs

/-- The store-level aggregation of `search_similar_laws`: deduplicate by
text keeping the best score, then stable-sort descending by score. -/
def aggregate (candidates : List LawResult) : List LawResult :=
  sortByScoreDesc (dedupMax candidates)

/-- `search_similar_laws` (milvus_db.py lines 71-134), with the Milvus
client call abstracted to its reply: `none` models the `except` branch
(log and `return []`); `some results` is the per-query-vector list of hit
lists. The nested loop over `results` then over each `query_results` visits
exactly the flattened list in order. -/
def search_similar_laws (reply : Option (List (List Hit))) : List LawResult :=
  match reply with
  | none => []
  | some results => aggregate ((results.flatten).map buildResult)

/-- `COLLECTION_KG if lang == 'kg' else COLLECTION_RU` (milvus_db.py line 92). -/
def collection_for (lang : String) : String :=
  if lang = "kg" then "law_collection_kg" else "law_collection"

/-- The dedup loop of the document/image pro-mode fan-out
(src/searchers/search.py lines 207-213): a `seen_texts` set plus an output
list; each candidate is kept only if its text was not seen before, so the
first occurrence of each text is retained regardless of score. -/
def dedupFirstAux (seen : List String) : List LawResult → List LawResult
  | [] => []
  | r :: rest =>
    if r.text ∈ seen then dedupFirstAux seen rest
    else r :: dedupFirstAux (r.text :: seen) rest

/-- Fan-out dedup starting from an empty `seen_texts` set. -/
def dedupFirst (all_results : List LawResult) : List LawResult :=
  dedupFirstAux [] all_results

/-- `LLMHelper.get_llm_questions` (src/aitools/llm.py lines 94-125), with
the provider call abstracted to its reply: `none` models the `except`
branch (log and `return None`); `some qs` is the parsed list of question
strings, which the method truncates with `questions[:top_k]`. -/
def get_llm_questions (providerReply : Option (List String)) (top_k : Nat) :
    Option (List String) :=
  match providerReply with
  | none => none
  | some qs => some (qs.take top_k)

/-- Observable side-calls of the orchestrator, recorded in order so that
"stage X is never invoked" claims are statable. -/
inductive Event where
  | questions
  | embed
  | search
  | synth
  | docExtract
deriving DecidableEq

/-- Oracles for `ProLawRAGSearch.get_response_text`
(src/searchers/search.py lines 91-150): the reply of each external call.
`embed` models `QueryEmbedder.encode_queries` (pure per-call); `store`
models the Milvus client reply for a (collection, query vectors, limit)
triple; `synth` models `get_llm_response` for a given user query, `none`
being its error branch (which returns `None`, turned into `""` by
`response or ""`). -/
structure Oracles where
  providerQuestions : Option (List String)
  embed : List String → List (List Int)
  store : String → List (List Int) → Nat → Option (List (List Hit))
  synth : String → List LawResult → Option String

/-- `ProLawRAGSearch._format_search_results` (search.py lines 61-89):
language header (`dict.get(lang, ru-header)`) followed by numbered entries. -/
def format_search_results (results : List LawResult) (lang : String) : String :=
  let header := if lang = "kg" then "🔍 **Табылган статьялар:**\n\n"
    else "🔍 **Найденные статьи:**\n\n"
  let parts := (results.enumFrom 1).map (fun p =>
    "**" ++ toString p.1 ++ ". " ++ p.2.path ++ "**\n" ++ p.2.text
      ++ "\n\n" ++ String.mk (List.replicate 30 '─') ++ "\n\n")
  String.join (header :: parts)

/-- The retrieval step shared by every mode: `self._milvus.search_similar_laws
(query_vectors, top_k=self._top_k, lang=lang)` (search.py lines 127-131),
with collection selection applied to the store oracle. -/
def retrieve (o : Oracles) (lang : String) (query_vectors : List (List Int))
    (top_k : Nat) : List LawResult :=
  search_similar_laws (o.store (collection_for lang) query_vectors top_k)

/-- The tail of `get_response_text` after the query vectors are known
(search.py lines 126-146): search, empty check, search-mode formatting,
otherwise synthesis with `response or ""`. -/
def searchAndRespond (o : Oracles) (top_k : Nat) (query ty lang : String)
    (query_vectors : List (List Int)) (log : List Event) : String × List Event :=
  let log := log ++ [Event.search]
  let results := retrieve o lang query_vectors top_k
  if results = [] then ("", log)
  else if ty = "search" then (format_search_results results lang, log)
  else
    let log := log ++ [Event.synth]
    ((o.synth query results).getD "", log)

/-- `ProLawRAGSearch.get_response_text` (search.py lines 91-150). In pro
mode the expanded questions are generated first and a falsy result (`None`
or `[]`) aborts with `""`; base and search modes encode the query directly. -/
def get_response_text (o : Oracles) (top_k n_llm_questions : Nat)
    (query ty lang : String) : String × List Event :=
  if ty = "pro" then
    let log := [Event.questions]
    match get_llm_questions o.providerQuestions n_llm_questions with
    | none => ("", log)
    | some llm_questions =>
      if llm_questions = [] then ("", log)
      else
        searchAndRespond o top_k query ty lang (o.embed llm_questions)
          (log ++ [Event.embed])
  else
    searchAndRespond o top_k query ty lang (o.embed [query]) [Event.embed]

/-- Oracles for the document/image flows of `ProLawRAGSearch`
(search.py lines 152-322): the extraction reply (`get_doc_data` /
`get_image_data`), a per-paragraph question-generation reply, and the same
embedding, store and synthesis oracles as for plain text. -/
structure DocOracles where
  docData : Option (List String)
  questionsFor : String → Option (List String)
  embed : List String → List (List Int)
  store : String → List (List Int) → Nat → Option (List (List Hit))
  synth : String → List LawResult → Option String

/-- `config.concat_query_and_doc` (src/confs/config.py lines 118-130). -/
def concat_query_and_doc (query : String) (doc_data : List String) : String :=
  "Question: " ++ query ++ "\n\nDocument:\n" ++ String.intercalate "\n" doc_data

/-- One iteration of the pro-mode fan-out loop body
(search.py lines 187-205): generate questions for the paragraph, skip the
paragraph on a falsy result, otherwise encode, search, and extend
`all_results` with any non-empty paragraph results. -/
def doc_pro_step (o : DocOracles) (top_k n_llm_questions : Nat) (lang : String)
    (acc : List LawResult × List Event) (paragraph : String) :
    List LawResult × List Event :=
  let all_results := acc.1
  let log := acc.2 ++ [Event.questions]
  match get_llm_questions (o.questionsFor paragraph) n_llm_questions with
  | none => (all_results, log)
  | some llm_questions =>
    if llm_questions = [] then (all_results, log)
    else
      let log := log ++ [Event.embed, Event.search]
      let paragraph_results :=
        search_similar_laws
          (o.store (collection_for lang) (o.embed llm_questions) top_k)
      if paragraph_results = [] then (all_results, log)
      else (all_results ++ paragraph_results, log)

/-- The whole pro-mode fan-out of the document/image flows
(search.py lines 183-213): the per-paragraph loop followed by the
first-occurrence dedup of the collected `all_results`. -/
def doc_pro_aggregate (o : DocOracles) (top_k n_llm_questions : Nat)
    (lang : String) (doc_data : List String) : List LawResult × List Event :=
  let folded := doc_data.foldl (doc_pro_step o top_k n_llm_questions lang) ([], [])
  (dedupFirst folded.1, folded.2)

/-- The shared body of `get_response_from_doc_text` and
`get_response_from_image_text` after the extraction call (search.py lines
176-236 and 262-322, which are textually identical): falsy extraction
aborts with `""`; pro mode runs the fan-out, base mode encodes the
paragraphs directly; empty results abort with `""`; otherwise the combined
query-plus-document prompt is synthesized, with `response or ""`. -/
def doc_flow (o : DocOracles) (top_k n_llm_questions : Nat)
    (extractionReply : Option (List String)) (query ty lang : String) :
    String × List Event :=
  let log := [Event.docExtract]
  match extractionReply with
  | none => ("", log)
  | some doc_data =>
    if doc_data = [] then ("", log)
    else
      let user_input := concat_query_and_doc query doc_data
      let resultsLog :=
        if ty = "pro" then
          let p := doc_pro_aggregate o top_k n_llm_questions lang doc_data
          (p.1, log ++ p.2)
        else
          (search_similar_laws
              (o.store (collection_for lang) (o.embed doc_data) top_k),
            log ++ [Event.embed, Event.search])
      let results := resultsLog.1
      let log := resultsLog.2
      if results = [] then ("", log)
      else
        let log := log ++ [Event.synth]
        ((o.synth user_input results).getD "", log)

/-- `ProLawRAGSearch.get_response_from_doc_text` (search.py lines 152-236). -/
def get_response_from_doc_text (o : DocOracles) (top_k n_llm_questions : Nat)
    (query ty lang : String) : String × List Event :=
  doc_flow o top_k n_llm_questions o.docData query ty lang

/-- The method names defined by `class LLMHelper` (src/aitools/llm.py):
`get_llm_questions`, `get_llm_response` and `get_doc_data` are its only
public methods — there is no `get_image_data`. -/
def llmHelperMethods : List String :=
  ["get_llm_questions", "get_llm_response", "get_doc_data"]

/-- The attribute access `self._llm.get_image_data` performed first inside
the `try` block of `get_response_from_image_text` (search.py line 262):
`none` models the `AttributeError` raised because `LLMHelper` defines no
such method. -/
def get_image_data_attr : Option Unit :=
  if "get_image_data" ∈ llmHelperMethods then some () else none

/-- `ProLawRAGSearch.get_response_from_image_text` (search.py lines
238-322). The first expression evaluated inside the `try` block is the
attribute access `self._llm.get_image_data`; when it raises, the blanket
`except` handler returns `""` before any other stage runs. Were the
attribute present, the body would be the document flow with the image
extraction reply in place of `get_doc_data` (the two bodies are textually
identical in the source). -/
def get_response_from_image_text (o : DocOracles) (top_k n_llm_questions : Nat)
    (imageData : Option (List String)) (query ty lang : String) :
    String × List Event :=
  match get_image_data_attr with
  | none => ("", [])
  | some _ => doc_flow o top_k n_llm_questions imageData query ty lang

/-- The aggregated ResultSet of the pro path of `get_response_text`: the
expanded questions are encoded and the resulting vectors searched
(search.py lines 121 and 127-131). -/
def pro_aggregation (o : Oracles) (lang : String) (llm_questions : List String)
    (top_k : Nat) : List LawResult :=
  retrieve o lang (o.embed llm_questions) top_k

/-- The aggregated ResultSet of the base path of `get_response_text`: the
single user query is encoded and the resulting vector searched
(search.py lines 124 and 127-131). -/
def base_aggregation (o : Oracles) (lang : String) (query : String)
    (top_k : Nat) : List LawResult :=
  retrieve o lang (o.embed [query]) top_k

/-- The evolution of the `seen_texts` entry for one fixed passage text as
candidates with that text arrive: absent until first seen, then replaced
only by a strictly greater score (the claim-level view of the guard at
milvus_db.py line 115). -/
def step (o : Option LawResult) (r : LawResult) : Option LawResult :=
  match o with
  | none => some r
  | some b => if r.distance > b.distance then some r else some b

/-- All passage texts in the list are pairwise distinct. -/
abbrev UniqueTexts (l : List LawResult) : Prop :=
  l.Pairwise (fun a b => a.text ≠ b.text)

/-- `domAll occs r` holds when `r`'s score is at least the score of every
occurrence in `occs`: the claim-side notion of "the candidate with the
maximum score"; `List.find?` with this predicate returns the
first-encountered candidate achieving the maximum. -/
def domAll (occs : List LawResult) (r : LawResult) : Bool :=
  occs.all (fun s => s.distance ≤ r.distance)

/-! Concrete inputs used by counterexamples and witnesses. -/

/-- A hit whose passage text is `"A"` with score 1. -/
def hitA_low : Hit :=
  { distance := 1, source_doc := "d1", sectionName := "s1", chapter := "c1"
  , article_title := "t1", article_text := "A" }

/-- A hit with the same passage text `"A"` but the higher score 2. -/
def hitA_high : Hit :=
  { distance := 2, source_doc := "d2", sectionName := "s2", chapter := "c2"
  , article_title := "t2", article_text := "A" }

/-- A hit with a different passage text `"B"` and score 2. -/
def hitB_high : Hit :=
  { distance := 2, source_doc := "d3", sectionName := "s3", chapter := "c3"
  , article_title := "t3", article_text := "B" }

/-- Document oracles for a two-paragraph fan-out in which both paragraphs
retrieve the same passage text `"A"`, the first with score 1 and the
second with score 2. -/
def fanoutSameTextOracles : DocOracles :=
  { docData := some ["p1", "p2"]
  , questionsFor := fun p => if p = "p1" then some ["q1"] else some ["q2"]
  , embed := fun qs => if qs = ["q1"] then [[1]] else [[2]]
  , store := fun _ vecs _ =>
      if vecs = [[1]] then some [[hitA_low]] else some [[hitA_high]]
  , synth := fun _ _ => some "answer" }

/-- Document oracles for a two-paragraph fan-out in which the first
paragraph retrieves text `"A"` with score 1 and the second retrieves text
`"B"` with score 2. -/
def fanoutTwoTextOracles : DocOracles :=
  { docData := some ["p1", "p2"]
  , questionsFor := fun p => if p = "p1" then some ["q1"] else some ["q2"]
  , embed := fun qs => if qs = ["q1"] then [[1]] else [[2]]
  , store := fun _ vecs _ =>
      if vecs = [[1]] then some [[hitA_low]] else some [[hitB_high]]
  , synth := fun _ _ => some "answer" }

/-- Oracles whose embedder is constant, so any two query sets produce the
same vectors. -/
def constEmbedOracles : Oracles :=
  { providerQuestions := some ["x"]
  , embed := fun _ => [[7]]
  , store := fun _ _ _ => some [[hitA_low, hitB_high]]
  , synth := fun _ _ => some "answer" }

/-- Oracles whose question-generation provider call fails. -/
def failedExpanderOracles : Oracles :=
  { providerQuestions := none
  , embed := fun _ => [[7]]
  , store := fun _ _ _ => some [[hitA_low]]
  , synth := fun _ _ => some "answer" }

/-- Oracles whose vector store returns zero hits for every query vector. -/
def zeroHitOracles : Oracles :=
  { providerQuestions := some ["x"]
  , embed := fun _ => [[7]]
  , store := fun _ _ _ => some [[], []]
  , synth := fun _ _ => some "answer" }

/-- Document oracles whose extraction call returns an empty paragraph list. -/
def emptyDocOracles : DocOracles :=
  { docData := some []
  , questionsFor := fun _ => some ["q"]
  , embed := fun _ => [[7]]
  , store := fun _ _ _ => some [[hitA_low]]
  , synth := fun _ _ => some "answer" }

/-! ## Helper lemmas -/

theorem length_updateSeen (seen : List LawResult) (r : LawResult) :
    (updateSeen seen r).length ≤ seen.length + 1 := by
  induction seen with
  | nil => simp [updateSeen]
  | cons s rest ih =>
    by_cases h : s.text = r.text
    · simp [updateSeen, h]
    · simp only [updateSeen, if_neg h, List.length_cons]
      omega

theorem length_foldl_updateSeen (cands : List LawResult) :
    ∀ seen : List LawResult,
    (cands.foldl updateSeen seen).length ≤ seen.length + cands.length := by
  induction cands with
  | nil => intro seen; simp
  | cons r rest ih =>
    intro seen
    have h1 : ((r :: rest).foldl updateSeen seen)
        = rest.foldl updateSeen (updateSeen seen r) := rfl
    have h2 := ih (updateSeen seen r)
    have h3 := length_updateSeen seen r
    rw [h1]
    simp only [List.length_cons]
    omega

theorem length_dedupMax (cands : List LawResult) :
    (dedupMax cands).length ≤ cands.length := by
  simpa using length_foldl_updateSeen cands []

theorem length_aggregate (cands : List LawResult) :
    (aggregate cands).length ≤ cands.length := by
  have h : (aggregate cands).length = (dedupMax cands).length := by
    simp [aggregate, sortByScoreDesc]
  rw [h]
  exact length_dedupMax cands

theorem flatten_length_le (rs : List (List Hit)) (k : Nat)
    (h : ∀ l ∈ rs, l.length ≤ k) : rs.flatten.length ≤ rs.length * k := by
  induction rs with
  | nil => simp
  | cons l rest ih =>
    have h1 := h l (by simp)
    have h2 := ih (fun x hx => h x (by simp [hx]))
    have h3 : (rest.length + 1) * k = rest.length * k + k := Nat.succ_mul _ _
    simp only [List.flatten_cons, List.length_append, List.length_cons]
    omega

theorem aggregate_sorted (cands : List LawResult) :
    (aggregate cands).Pairwise (fun a b => b.distance ≤ a.distance) :=
  List.sorted_insertionSort scoreGe (dedupMax cands)

theorem search_similar_laws_of_zero_hits (reply : Option (List (List Hit)))
    (h : ∀ l ∈ reply.getD [], l = []) : search_similar_laws reply = [] := by
  match reply with
  | none => rfl
  | some rs =>
    have hf : rs.flatten = [] := by
      rw [List.flatten_eq_nil_iff]
      simpa using h
    have h1 : search_similar_laws (some rs)
        = aggregate ((rs.flatten).map buildResult) := rfl
    rw [h1, hf]
    rfl

theorem searchAndRespond_of_no_results (o : Oracles) (top_k : Nat)
    (query ty lang : String) (qvs : List (List Int)) (log : List Event)
    (h : retrieve o lang qvs top_k = []) :
    searchAndRespond o top_k query ty lang qvs log = ("", log ++ [Event.search]) := by
  simp [searchAndRespond, h]

theorem head?_toList {α : Type} (o : Option α) : o.toList.head? = o := by
  cases o <;> rfl

theorem length_le_one_toList {α : Type} (l : List α) (h : l.length ≤ 1) :
    l = l.head?.toList := by
  match l with
  | [] => rfl
  | [_] => rfl
  | _ :: _ :: _ => simp at h

theorem filter_updateSeen_of_ne (t : String) (r : LawResult) (h : r.text ≠ t) :
    ∀ seen : List LawResult,
    (updateSeen seen r).filter (fun x => x.text == t)
      = seen.filter (fun x => x.text == t) := by
  intro seen
  induction seen with
  | nil => simp [updateSeen, h]
  | cons s rest ih =>
    by_cases hs : s.text = r.text
    · have hst : s.text ≠ t := by rw [hs]; exact h
      by_cases hgt : r.distance > s.distance <;>
        simp [updateSeen, hs, hgt, h, hst, List.filter_cons]
    · simp only [updateSeen, if_neg hs, List.filter_cons]
      rw [ih]

theorem filter_updateSeen_of_eq (t : String) (r : LawResult) (h : r.text = t) :
    ∀ seen : List LawResult,
    (updateSeen seen r).filter (fun x => x.text == t)
      = match seen.filter (fun x => x.text == t) with
        | [] => [r]
        | b :: bs => (if r.distance > b.distance then r else b) :: bs := by
  intro seen
  induction seen with
  | nil => simp [updateSeen, h]
  | cons s rest ih =>
    by_cases hs : s.text = r.text
    · have hst : s.text = t := hs.trans h
      by_cases hgt : r.distance > s.distance <;>
        simp [updateSeen, hs, hgt, h, hst, List.filter_cons]
    · have hst : s.text ≠ t := fun hc => hs (hc.trans h.symm)
      simp only [updateSeen, if_neg hs, List.filter_cons, beq_iff_eq,
        if_neg hst]
      rw [ih]

theorem filter_foldl_updateSeen (t : String) :
    ∀ (cands seen : List LawResult),
    (seen.filter (fun x => x.text == t)).length ≤ 1 →
    (cands.foldl updateSeen seen).filter (fun x => x.text == t)
      = ((cands.filter (fun x => x.text == t)).foldl step
          ((seen.filter (fun x => x.text == t)).head?)).toList := by
  intro cands
  induction cands with
  | nil =>
    intro seen h
    simpa using length_le_one_toList _ h
  | cons r rest ih =>
    intro seen h
    have hfold : (r :: rest).foldl updateSeen seen
        = rest.foldl updateSeen (updateSeen seen r) := rfl
    by_cases hrt : r.text = t
    · have hup : (updateSeen seen r).filter (fun x => x.text == t)
          = (step ((seen.filter (fun x => x.text == t)).head?) r).toList := by
        rw [filter_updateSeen_of_eq t r hrt seen]
        cases hf : seen.filter (fun x => x.text == t) with
        | nil => simp [step]
        | cons b bs =>
          have hbs : bs = [] := by
            rw [hf] at h
            simpa using h
          subst hbs
          by_cases hgt : r.distance > b.distance <;> simp [step, hgt]
      have hlen2 : ((updateSeen seen r).filter (fun x => x.text == t)).length
          ≤ 1 := by
        rw [hup]
        cases step ((seen.filter (fun x => x.text == t)).head?) r <;> simp
      have hfr : ((r :: rest).filter (fun x => x.text == t))
          = r :: rest.filter (fun x => x.text == t) := by
        simp [List.filter_cons, hrt]
      rw [hfold, ih _ hlen2, hup, hfr, head?_toList]
      rfl
    · have hup := filter_updateSeen_of_ne t r hrt seen
      have hlen2 : ((updateSeen seen r).filter (fun x => x.text == t)).length
          ≤ 1 := by
        rw [hup]; exact h
      have hfr : ((r :: rest).filter (fun x => x.text == t))
          = rest.filter (fun x => x.text == t) := by
        simp [List.filter_cons, hrt]
      rw [hfold, ih _ hlen2, hup, hfr]

theorem find?_congr_mem {α : Type} (l : List α) (p q : α → Bool)
    (h : ∀ x ∈ l, p x = q x) : l.find? p = l.find? q := by
  induction l with
  | nil => rfl
  | cons a l ih =>
    have ha := h a (by simp)
    cases hq : q a with
    | true =>
      rw [List.find?_cons_of_pos _ (ha.trans hq), List.find?_cons_of_pos _ hq]
    | false =>
      rw [List.find?_cons_of_neg _ (by simp [ha, hq]),
        List.find?_cons_of_neg _ (by simp [hq])]
      exact ih (fun x hx => h x (by simp [hx]))

theorem domAll_cons (b : LawResult) (l : List LawResult) (x : LawResult) :
    domAll (b :: l) x = (decide (b.distance ≤ x.distance) && domAll l x) := by
  simp [domAll]

theorem foldl_step_some :
    ∀ (occs : List LawResult) (b : LawResult),
    occs.foldl step (some b)
      = (b :: occs).find? (domAll (b :: occs)) := by
  intro occs
  induction occs with
  | nil =>
    intro b
    have hb : domAll [b] b = true := by simp [domAll]
    rw [List.find?_cons_of_pos _ hb]
    rfl
  | cons r rest ih =>
    intro b
    by_cases hgt : r.distance > b.distance
    · have h1 : (r :: rest).foldl step (some b) = rest.foldl step (some r) := by
        simp [step, hgt]
      rw [h1, ih r]
      have hPb : domAll (b :: r :: rest) b = false := by
        cases hdom : domAll (b :: r :: rest) b
        · rfl
        · exfalso
          simp only [domAll, List.all_cons, Bool.and_eq_true,
            decide_eq_true_eq] at hdom
          omega
      have e1 : (b :: r :: rest).find? (domAll (b :: r :: rest))
          = (r :: rest).find? (domAll (b :: r :: rest)) :=
        List.find?_cons_of_neg _ (by simp [hPb])
      rw [e1]
      apply find?_congr_mem
      intro x _
      rw [domAll_cons b (r :: rest) x]
      cases hq : domAll (r :: rest) x
      · rw [Bool.and_false]
      · have hr_le : r.distance ≤ x.distance := by
          have hq' := hq
          simp only [domAll, List.all_cons, Bool.and_eq_true,
            decide_eq_true_eq] at hq'
          exact hq'.1
        have hb_le : b.distance ≤ x.distance := by omega
        rw [decide_eq_true hb_le, Bool.true_and]
    · have hle : r.distance ≤ b.distance := by omega
      have h1 : (r :: rest).foldl step (some b) = rest.foldl step (some b) := by
        simp [step, hgt]
      rw [h1, ih b]
      have hPQ : ∀ x, domAll (b :: r :: rest) x = domAll (b :: rest) x := by
        intro x
        rw [domAll_cons b (r :: rest) x, domAll_cons r rest x,
          domAll_cons b rest x]
        cases hb : decide (b.distance ≤ x.distance)
        · rw [Bool.false_and, Bool.false_and]
        · have hb' : b.distance ≤ x.distance := of_decide_eq_true hb
          have hr' : r.distance ≤ x.distance := by omega
          rw [decide_eq_true hr', Bool.true_and]
      cases hQb : domAll (b :: rest) b
      · have hPb : domAll (b :: r :: rest) b = false := (hPQ b).trans hQb
        have e1 : (b :: rest).find? (domAll (b :: rest))
            = rest.find? (domAll (b :: rest)) :=
          List.find?_cons_of_neg _ (by simp [hQb])
        have e2 : (b :: r :: rest).find? (domAll (b :: r :: rest))
            = (r :: rest).find? (domAll (b :: r :: rest)) :=
          List.find?_cons_of_neg _ (by simp [hPb])
        have hPr : domAll (b :: r :: rest) r = false := by
          rw [hPQ r]
          cases hbr : decide (b.distance ≤ r.distance)
          · rw [domAll_cons b rest r, hbr, Bool.false_and]
          · have hbr' : b.distance ≤ r.distance := of_decide_eq_true hbr
            have hd : r.distance = b.distance := le_antisymm hle hbr'
            have heq : domAll (b :: rest) r = domAll (b :: rest) b := by
              simp [domAll, hd]
            rw [heq, hQb]
        have e3 : (r :: rest).find? (domAll (b :: r :: rest))
            = rest.find? (domAll (b :: r :: rest)) :=
          List.find?_cons_of_neg _ (by simp [hPr])
        rw [e1, e2, e3]
        exact (find?_congr_mem _ _ _ (fun x _ => hPQ x)).symm
      · have hPb : domAll (b :: r :: rest) b = true := (hPQ b).trans hQb
        have e1 : (b :: rest).find? (domAll (b :: rest)) = some b :=
          List.find?_cons_of_pos _ hQb
        have e2 : (b :: r :: rest).find? (domAll (b :: r :: rest)) = some b :=
          List.find?_cons_of_pos _ hPb
        rw [e1, e2]

theorem foldl_step_eq_find? (occs : List LawResult) :
    occs.foldl step none = occs.find? (domAll occs) := by
  cases occs with
  | nil => rfl
  | cons r rest =>
    have h1 : (r :: rest).foldl step none = rest.foldl step (some r) := rfl
    rw [h1, foldl_step_some rest r]

theorem mem_updateSeen (seen : List LawResult) (r x : LawResult)
    (h : x ∈ updateSeen seen r) : x ∈ seen ∨ x = r := by
  induction seen with
  | nil => simpa [updateSeen] using h
  | cons s rest ih =>
    by_cases hs : s.text = r.text
    · simp only [updateSeen, if_pos hs] at h
      rcases List.mem_cons.mp h with h1 | h1
      · by_cases hgt : r.distance > s.distance
        · rw [if_pos hgt] at h1
          exact Or.inr h1
        · rw [if_neg hgt] at h1
          exact Or.inl (by simp [h1])
      · exact Or.inl (by simp [h1])
    · simp only [updateSeen, if_neg hs] at h
      rcases List.mem_cons.mp h with h1 | h1
      · exact Or.inl (by simp [h1])
      · rcases ih h1 with h2 | h2
        · exact Or.inl (by simp [h2])
        · exact Or.inr h2

theorem uniqueTexts_updateSeen (seen : List LawResult) (r : LawResult)
    (h : UniqueTexts seen) : UniqueTexts (updateSeen seen r) := by
  induction seen with
  | nil => simp [updateSeen]
  | cons s rest ih =>
    rcases List.pairwise_cons.mp h with ⟨hhead, htail⟩
    by_cases hs : s.text = r.text
    · simp only [updateSeen, if_pos hs]
      apply List.pairwise_cons.mpr
      refine ⟨?_, htail⟩
      intro x hx
      have hbt : (if r.distance > s.distance then r else s).text = s.text := by
        by_cases hgt : r.distance > s.distance <;> simp [hgt, hs]
      rw [hbt]
      exact hhead x hx
    · simp only [updateSeen, if_neg hs]
      apply List.pairwise_cons.mpr
      refine ⟨?_, ih htail⟩
      intro x hx
      rcases mem_updateSeen rest r x hx with h1 | h1
      · exact hhead x h1
      · rw [h1]
        exact hs

theorem uniqueTexts_foldl_updateSeen :
    ∀ (cands seen : List LawResult), UniqueTexts seen →
    UniqueTexts (cands.foldl updateSeen seen) := by
  intro cands
  induction cands with
  | nil => intro seen h; exact h
  | cons r rest ih =>
    intro seen h
    exact ih _ (uniqueTexts_updateSeen seen r h)

theorem uniqueTexts_dedupMax (cands : List LawResult) :
    UniqueTexts (dedupMax cands) :=
  uniqueTexts_foldl_updateSeen cands [] List.Pairwise.nil

theorem filter_length_le_one_of_unique (t : String) :
    ∀ l : List LawResult, UniqueTexts l →
    (l.filter (fun x => x.text == t)).length ≤ 1 := by
  intro l
  induction l with
  | nil => simp
  | cons a l ih =>
    intro h
    rcases List.pairwise_cons.mp h with ⟨hhead, htail⟩
    by_cases ha : a.text = t
    · have hnil : l.filter (fun x => x.text == t) = [] := by
        rw [List.filter_eq_nil_iff]
        intro x hx
        simp only [beq_iff_eq]
        intro hc
        exact hhead x hx (ha.trans hc.symm)
      simp [List.filter_cons, ha, hnil]
    · simp only [List.filter_cons, beq_iff_eq, if_neg ha]
      exact ih htail

theorem perm_eq_of_length_le_one {α : Type} {l₁ l₂ : List α}
    (h : l₁.Perm l₂) (hlen : l₂.length ≤ 1) : l₁ = l₂ := by
  match l₂, hlen with
  | [], _ => exact h.eq_nil
  | [a], _ => exact List.perm_singleton.mp h
  | a :: b :: rest, hlen => simp at hlen

theorem filter_aggregate_eq (cands : List LawResult) (t : String) :
    (aggregate cands).filter (fun x => x.text == t)
      = (dedupMax cands).filter (fun x => x.text == t) := by
  have hperm : (aggregate cands).Perm (dedupMax cands) :=
    List.perm_insertionSort scoreGe (dedupMax cands)
  exact perm_eq_of_length_le_one (hperm.filter _)
    (filter_length_le_one_of_unique t _ (uniqueTexts_dedupMax cands))

theorem filter_dedupMax_eq_find? (cands : List LawResult) (t : String) :
    (dedupMax cands).filter (fun x => x.text == t)
      = ((cands.filter (fun x => x.text == t)).find?
          (domAll (cands.filter (fun x => x.text == t)))).toList := by
  have h := filter_foldl_updateSeen t cands [] (by simp)
  simp only [List.filter_nil, List.head?_nil] at h
  have hd : dedupMax cands = cands.foldl updateSeen [] := rfl
  rw [hd, h, foldl_step_eq_find?]

theorem filter_dedupFirstAux (t : String) :
    ∀ (cands : List LawResult) (seen : List String),
    (dedupFirstAux seen cands).filter (fun x => x.text == t)
      = if t ∈ seen then []
        else ((cands.filter (fun x => x.text == t)).head?).toList := by
  intro cands
  induction cands with
  | nil =>
    intro seen
    by_cases h : t ∈ seen <;> simp [dedupFirstAux, h]
  | cons r rest ih =>
    intro seen
    by_cases hmem : r.text ∈ seen
    · have e1 : dedupFirstAux seen (r :: rest) = dedupFirstAux seen rest := by
        simp [dedupFirstAux, hmem]
      rw [e1, ih seen]
      by_cases ht : t ∈ seen
      · simp [ht]
      · have hrt : r.text ≠ t := fun hc => ht (hc ▸ hmem)
        simp [ht, List.filter_cons, hrt]
    · have e1 : dedupFirstAux seen (r :: rest)
          = r :: dedupFirstAux (r.text :: seen) rest := by
        simp [dedupFirstAux, hmem]
      rw [e1]
      by_cases hrt : r.text = t
      · subst hrt
        rw [List.filter_cons, List.filter_cons]
        simp only [beq_self_eq_true, if_pos]
        rw [ih (r.text :: seen)]
        simp [hmem]
      · have hne : (r.text == t) = false := by simp [hrt]
        rw [List.filter_cons, List.filter_cons, hne]
        simp only [Bool.false_eq_true, if_neg]
        rw [ih (r.text :: seen)]
        by_cases ht : t ∈ seen
        · simp [ht, List.mem_cons]
        · have hts : t ∉ r.text :: seen := by
            intro hc
            rcases List.mem_cons.mp hc with h1 | h1
            · exact hrt h1.symm
            · exact ht h1
          simp [hts, ht]

theorem updateSeen_append (seen : List LawResult) (r : LawResult)
    (h : ∀ s ∈ seen, s.text ≠ r.text) : updateSeen seen r = seen ++ [r] := by
  induction seen with
  | nil => rfl
  | cons s rest ih =>
    have hs : s.text ≠ r.text := h s (by simp)
    simp only [updateSeen, if_neg hs, List.cons_append]
    rw [ih (fun x hx => h x (by simp [hx]))]

theorem foldl_updateSeen_of_unique :
    ∀ (l seen : List LawResult), UniqueTexts l →
    (∀ s ∈ seen, ∀ r ∈ l, s.text ≠ r.text) →
    l.foldl updateSeen seen = seen ++ l := by
  intro l
  induction l with
  | nil => intro seen _ _; simp
  | cons r rest ih =>
    intro seen hu hd
    rcases List.pairwise_cons.mp hu with ⟨hhead, htail⟩
    have h1 : updateSeen seen r = seen ++ [r] :=
      updateSeen_append seen r (fun s hs => hd s hs r (by simp))
    have h2 : (r :: rest).foldl updateSeen seen
        = rest.foldl updateSeen (updateSeen seen r) := rfl
    rw [h2, h1, ih (seen ++ [r]) htail ?_]
    · simp
    · intro s hs x hx
      rcases List.mem_append.mp hs with h3 | h3
      · exact hd s h3 x (by simp [hx])
      · rw [List.mem_singleton.mp h3]
        exact hhead x hx

theorem dedupMax_of_unique (l : List LawResult)
    (h : UniqueTexts l) : dedupMax l = l := by
  have h1 := foldl_updateSeen_of_unique l [] h (by simp)
  simpa [dedupMax] using h1

theorem uniqueTexts_aggregate (cands : List LawResult) :
    UniqueTexts (aggregate cands) := by
  have hperm : (aggregate cands).Perm (dedupMax cands) :=
    List.perm_insertionSort scoreGe (dedupMax cands)
  exact (List.Perm.pairwise_iff (fun h => Ne.symm h) hperm).mpr
    (uniqueTexts_dedupMax cands)

/-! ## Claims -/

/-- C4: for every oracle configuration, query, mode and language,
`get_response_from_image_text` returns the empty string (with no stage
event recorded): the attribute `get_image_data` does not exist on
`LLMHelper`, so the first expression of the `try` block raises and the
blanket handler returns `""`. -/
theorem C4_image_response_empty :
    ∀ (o : DocOracles) (top_k n : Nat) (imageData : Option (List String))
      (query ty lang : String),
    get_response_from_image_text o top_k n imageData query ty lang = ("", []) := by
  intro o k n img q ty lang
  rfl

/-- C5: for every QuerySet of length 1, the pro-mode aggregated ResultSet
equals the base-mode aggregated ResultSet when both search the identical
single query vector against the same collection and top_k. -/
theorem C5_single_query_equiv :
    ∀ (o : Oracles) (lang query : String) (llm_questions : List String)
      (top_k : Nat),
    llm_questions.length = 1 →
    o.embed llm_questions = o.embed [query] →
    pro_aggregation o lang llm_questions top_k
      = base_aggregation o lang query top_k := by
  intro o lang q qs k _hlen hemb
  unfold pro_aggregation base_aggregation
  rw [hemb]

/-- Witness for C5 at a concrete single-question QuerySet with a constant
embedder. -/
theorem C5_single_query_equiv_witness :
    (["x"] : List String).length = 1 ∧
    constEmbedOracles.embed ["x"] = constEmbedOracles.embed ["y"] ∧
    pro_aggregation constEmbedOracles "ru" ["x"] 3
      = base_aggregation constEmbedOracles "ru" "y" 3 :=
  ⟨rfl, rfl, C5_single_query_equiv constEmbedOracles "ru" "y" ["x"] 3 rfl rfl⟩

/-- C7: the Query Expander truncates after generation: on a successful
provider reply it returns exactly the first `count` questions in reply
order, never more than `count`, and never an error; in particular a reply
of 5 questions with `count = 3` yields exactly the first 3. -/
theorem C7_expander_truncates :
    ∀ (qs : List String) (count : Nat),
    get_llm_questions (some qs) count = some (qs.take count) ∧
    (qs.take count).length ≤ count ∧
    get_llm_questions (some ["q1", "q2", "q3", "q4", "q5"]) 3
      = some ["q1", "q2", "q3"] := by
  intro qs count
  refine ⟨rfl, ?_, rfl⟩
  rw [List.length_take]
  exact Nat.min_le_left _ _

/-- C8 counterexample: on provider failure the Query Expander returns
`None`, which is not an empty sequence. -/
theorem C8_counterexample :
    get_llm_questions none 3 = none ∧
    get_llm_questions none 3 ≠ some ([] : List String) := by
  exact ⟨rfl, by simp [get_llm_questions]⟩

/-- C8 amended: when the provider call fails the Query Expander returns
`None` — a falsy empty result, not a propagated exception — and the
pro-mode caller aborts with the empty string before any embedding or
search. -/
theorem C8_error_returns_none :
    ∀ (count : Nat) (o : Oracles) (top_k n : Nat) (query lang : String),
    get_llm_questions none count = none ∧
    (o.providerQuestions = none →
      get_response_text o top_k n query "pro" lang = ("", [Event.questions])) := by
  intro count o k n q lang
  refine ⟨rfl, fun h => ?_⟩
  simp [get_response_text, h, get_llm_questions]

/-- Witness for C8 at a concrete oracle whose provider call fails. -/
theorem C8_error_returns_none_witness :
    get_response_text failedExpanderOracles 3 3 "q" "pro" "ru"
      = ("", [Event.questions]) :=
  (C8_error_returns_none 3 failedExpanderOracles 3 3 "q" "ru").2 rfl

/-- C9: when document extraction returns an empty paragraph list,
`get_response_from_doc_text` returns the empty string and neither the
embedding client nor the vector retriever is invoked. -/
theorem C9_empty_extraction :
    ∀ (o : DocOracles) (top_k n : Nat) (query ty lang : String),
    o.docData = some [] →
    get_response_from_doc_text o top_k n query ty lang
      = ("", [Event.docExtract]) ∧
    Event.embed ∉ (get_response_from_doc_text o top_k n query ty lang).2 ∧
    Event.search ∉ (get_response_from_doc_text o top_k n query ty lang).2 := by
  intro o k n q ty lang h
  have heq : get_response_from_doc_text o k n q ty lang
      = ("", [Event.docExtract]) := by
    simp [get_response_from_doc_text, doc_flow, h]
  refine ⟨heq, ?_, ?_⟩ <;> simp [heq]

/-- Witness for C9 at a concrete oracle whose extraction is empty. -/
theorem C9_empty_extraction_witness :
    get_response_from_doc_text emptyDocOracles 3 3 "q" "base" "ru"
      = ("", [Event.docExtract]) :=
  (C9_empty_extraction emptyDocOracles 3 3 "q" "base" "ru" rfl).1

/-- C10: when the vector store returns zero hits for every query vector,
`get_response_text` returns the empty string in every mode and language,
and the answer synthesizer is never invoked. -/
theorem C10_zero_hits :
    ∀ (o : Oracles) (top_k n : Nat) (query ty lang : String),
    (∀ (col : String) (qvs : List (List Int)) (k : Nat),
        ∀ l ∈ (o.store col qvs k).getD [], l = []) →
    (get_response_text o top_k n query ty lang).1 = "" ∧
    Event.synth ∉ (get_response_text o top_k n query ty lang).2 := by
  intro o k n q ty lang h
  have hr : ∀ (lang2 : String) (qvs : List (List Int)),
      retrieve o lang2 qvs k = [] := fun lang2 qvs =>
    search_similar_laws_of_zero_hits _ (h _ _ _)
  by_cases hty : ty = "pro"
  · rw [hty]
    unfold get_response_text
    rw [if_pos rfl]
    cases hq : get_llm_questions o.providerQuestions n with
    | none => simp
    | some qs =>
      by_cases hqs : qs = []
      · simp [hqs]
      · simp only [hqs, if_neg hqs]
        rw [searchAndRespond_of_no_results o k q "pro" lang _ _ (hr _ _)]
        simp
  · unfold get_response_text
    rw [if_neg hty]
    rw [searchAndRespond_of_no_results o k q ty lang _ _ (hr _ _)]
    simp

/-- Witness for C10 at a concrete oracle whose store reply is a pair of
empty hit lists. -/
theorem C10_zero_hits_witness :
    (get_response_text zeroHitOracles 3 3 "q" "base" "ru").1 = "" ∧
    Event.synth ∉ (get_response_text zeroHitOracles 3 3 "q" "base" "ru").2 :=
  C10_zero_hits zeroHitOracles 3 3 "q" "base" "ru"
    (by
      intro col qvs k l hl
      simp only [zeroHitOracles, Option.getD_some, List.mem_cons,
        List.not_mem_nil, or_false] at hl
      rcases hl with h | h <;> exact h)

/-- C3 counterexample: with `top_k = 1` and two query vectors whose store
replies each respect the per-query limit of 1, the final ResultSet has
length 2 > 1 — the aggregator applies no final truncation to `top_k`. -/
theorem C3_counterexample :
    (∀ l ∈ [[hitA_low], [hitB_high]], l.length ≤ 1) ∧
    (search_similar_laws (some [[hitA_low], [hitB_high]])).length = 2 := by
  constructor
  · intro l hl
    simp only [List.mem_cons, List.not_mem_nil, or_false] at hl
    rcases hl with h | h <;> simp [h]
  · rfl

/-- C3 amended: the final ResultSet length never exceeds the number of
query vectors times `top_k` (given that the store honors the per-query
limit); only with a single query vector does the bound reduce to `top_k`. -/
theorem C3_length_bound :
    ∀ (reply : List (List Hit)) (top_k : Nat),
    (∀ l ∈ reply, l.length ≤ top_k) →
    (search_similar_laws (some reply)).length ≤ reply.length * top_k := by
  intro rs k h
  have h1 : search_similar_laws (some rs)
      = aggregate ((rs.flatten).map buildResult) := rfl
  rw [h1]
  calc (aggregate ((rs.flatten).map buildResult)).length
      ≤ ((rs.flatten).map buildResult).length := length_aggregate _
    _ = rs.flatten.length := by rw [List.length_map]
    _ ≤ rs.length * k := flatten_length_le rs k h

/-- Witness for C3's amended bound at the same concrete store reply. -/
theorem C3_length_bound_witness :
    (∀ l ∈ [[hitA_low], [hitB_high]], l.length ≤ 1) ∧
    (search_similar_laws (some [[hitA_low], [hitB_high]])).length
      ≤ [[hitA_low], [hitB_high]].length * 1 :=
  have h : ∀ l ∈ [[hitA_low], [hitB_high]], l.length ≤ 1 := by
    intro l hl
    simp only [List.mem_cons, List.not_mem_nil, or_false] at hl
    rcases hl with h | h <;> simp [h]
  ⟨h, C3_length_bound [[hitA_low], [hitB_high]] 1 h⟩

/-- C2 counterexample: in the document pro-mode fan-out, two paragraphs
whose per-paragraph result blocks are `[score 1]` and `[score 2]` produce
the ResultSet `[score 1, score 2]`, which is not sorted non-increasing. -/
theorem C2_counterexample :
    ((doc_pro_aggregate fanoutTwoTextOracles 5 3 "ru" ["p1", "p2"]).1).map
        (fun r => r.distance) = [1, 2] ∧
    ¬ ((doc_pro_aggregate fanoutTwoTextOracles 5 3 "ru" ["p1", "p2"]).1).Pairwise
        (fun a b => b.distance ≤ a.distance) := by
  constructor
  · rfl
  · intro hp
    have he : (doc_pro_aggregate fanoutTwoTextOracles 5 3 "ru" ["p1", "p2"]).1
        = [buildResult hitA_low, buildResult hitB_high] := rfl
    rw [he] at hp
    have := (List.pairwise_cons.mp hp).1 (buildResult hitB_high) (by simp)
    simp [buildResult, hitA_low, hitB_high] at this

/-- C1 counterexample: in the document fan-out, two paragraphs retrieving
the same passage text `"A"` with scores 1 and 2 give rise to two collected
candidates with identical text, yet the fan-out dedup retains the
first-encountered one with score 1, not the one with the maximum score 2. -/
theorem C1_counterexample :
    ((["p1", "p2"] : List String).foldl
        (doc_pro_step fanoutSameTextOracles 5 3 "ru") ([], [])).1.map
        (fun r => (r.text, r.distance)) = [("A", 1), ("A", 2)] ∧
    ((doc_pro_aggregate fanoutSameTextOracles 5 3 "ru" ["p1", "p2"]).1).map
        (fun r => (r.text, r.distance)) = [("A", 1)] :=
  ⟨rfl, rfl⟩

/-- C1 amended: in the store-level aggregator, for each passage text
exactly one candidate is retained: the first-encountered candidate whose
score is at least that of every candidate with the same text (maximum
score, earlier occurrence winning exact ties). In the document/image
fan-out dedup, the retained candidate is instead the first-encountered one
with that text, regardless of score. -/
theorem C1_dedup_semantics :
    ∀ (cands : List LawResult) (t : String),
    (aggregate cands).filter (fun r => r.text == t)
      = ((cands.filter (fun r => r.text == t)).find?
          (domAll (cands.filter (fun r => r.text == t)))).toList ∧
    (dedupFirst cands).filter (fun r => r.text == t)
      = ((cands.filter (fun r => r.text == t)).head?).toList := by
  intro cands t
  constructor
  · rw [filter_aggregate_eq, filter_dedupMax_eq_find?]
  · have h := filter_dedupFirstAux t cands []
    simpa [dedupFirst] using h

/-- C6: the aggregation (dedup by text keeping the maximum score, then
sort descending by score) is idempotent: applying it to its own output
returns the output unchanged. -/
theorem C6_aggregate_idempotent :
    ∀ cands : List LawResult, aggregate (aggregate cands) = aggregate cands := by
  intro cands
  have h1 : dedupMax (aggregate cands) = aggregate cands :=
    dedupMax_of_unique _ (uniqueTexts_aggregate cands)
  have h2 : (aggregate cands).Sorted scoreGe :=
    List.sorted_insertionSort scoreGe (dedupMax cands)
  calc aggregate (aggregate cands)
      = sortByScoreDesc (dedupMax (aggregate cands)) := rfl
    _ = sortByScoreDesc (aggregate cands) := by rw [h1]
    _ = aggregate cands := h2.insertionSort_eq

/-- C2 amended: every ResultSet produced by the store-level aggregator —
hence the base-mode and pro-mode ResultSets, and each per-paragraph block
of the fan-out — is sorted non-increasing by score; the concatenated
document/image fan-out ResultSet is not sorted in general. -/
theorem C2_store_sorted :
    ∀ (reply : Option (List (List Hit))),
    (search_similar_laws reply).Pairwise (fun a b => b.distance ≤ a.distance) := by
  intro reply
  match reply with
  | none => exact List.Pairwise.nil
  | some rs => exact aggregate_sorted _

end LawRAG
